import Mathlib

/-!
Shallow embedding of the `Metronome` class of rhythm-vis
(`src/lib/Metronome.js`, here `src/unnamed/part_000`).

Modelling choices:
* Clock times, tempos and frequencies are rationals (`ℚ`): the source does
  exact IEEE arithmetic on them, and the spec's claims are stated up to
  floating-point tolerance, i.e. about the exact arithmetic.
* JavaScript values reaching the public API are modelled by `JSNum`
  (`undefined`, `null`, `NaN`, or a finite number).
* `setTimeout`/`clearTimeout` are modelled by a single pending-timer slot
  `timer : Option TimerCb` recording which scheduler callback is armed;
  the external `AudioContext` and the `onClick` observer are modelled by
  returning the list of emissions (`_playSound` calls) of each operation.
* The `while` loop of `_scheduler` is modelled by the fuel-indexed
  `schedLoopF`, whose `finished` flag records whether the loop exited
  through its guard (rather than by fuel exhaustion); `Metronome.scheduler`
  runs it with provably sufficient fuel whenever `60 / bpm > 0`.
-/

namespace RhythmVis

/-- JavaScript values that can reach the metronome API: `undefined`, `null`,
`NaN`, or a finite number (modelled as a rational). -/
inductive JSNum where
  | undef : JSNum
  | null : JSNum
  | nan : JSNum
  | num : ℚ → JSNum
deriving DecidableEq

/-- JavaScript truthiness (the source tests `!bpm` / `!accent`):
`undefined`, `null`, `NaN` and `0` are falsy, every other number is truthy. -/
def truthy : JSNum → Bool
  | .undef => false
  | .null => false
  | .nan => false
  | .num q => q != 0

/-- JavaScript unary `+` (numeric coercion) on the values of `JSNum`. -/
def toNum : JSNum → JSNum
  | .undef => .nan
  | .null => .num 0
  | .nan => .nan
  | .num q => .num q

/-- `Number.isNaN` on an already-coerced value. -/
def jsIsNaN : JSNum → Bool
  | .nan => true
  | _ => false

/-- Extract the rational of a finite `JSNum` (only used after validation,
where the value is known to be a finite number). -/
def toQ : JSNum → ℚ
  | .num q => q
  | _ => 0

/-- Truncation toward zero, as JavaScript's `%` uses. -/
def jsTrunc (q : ℚ) : ℤ := if 0 ≤ q then ⌊q⌋ else ⌈q⌉

/-- JavaScript's remainder operator `%` on finite numbers:
`x - y * trunc (x / y)` (sign follows the dividend). -/
def jsRem (x y : ℚ) : ℚ := x - y * jsTrunc (x / y)

/-- One `_playSound(time, frequency)` call: the observer callback receives
`time` and the oscillator is started at `time` with `frequency`. -/
structure Emission where
  time : ℚ
  frequency : ℚ
deriving DecidableEq

/-- One entry of the `#rhythm` queue (`{time, accent}` in the source). -/
structure RhythmEvent where
  time : ℚ
  accent : Bool
deriving DecidableEq

/-- Which callback the pending `setTimeout` (the `#timerID` slot) would run. -/
inductive TimerCb where
  | tempo : TimerCb
  | rhythm : TimerCb
deriving DecidableEq

-- Config constants of the source (`#beepDuration`, `#lookAheadTime`,
-- `#scheduleTimeout`).
def beepDuration : ℚ := 1 / 20
def lookAheadTime : ℚ := 1 / 2
def scheduleTimeout : ℚ := 100

/-- The private state of a `Metronome` instance. `timer = some cb` means
the MOST RECENTLY armed `setTimeout(cb, scheduleTimeout)` (the handle the
source keeps in `#timerID`) is pending and not yet fired/cleared. This
single slot covers a single scheduler chain; the source's full `setTimeout`
environment can hold several live timeouts at once (reachable because
`start` re-arms without `clearTimeout`), which `MState` below models. -/
structure Metronome where
  isPlaying : Bool
  timer : Option TimerCb
  bpm : Option ℚ
  accent : ℚ
  startTimeStamp : Option ℚ
  beatCount : Option ℤ
  rhythm : Option (List RhythmEvent)
deriving DecidableEq

/-- Field initialisers of the class. -/
def Metronome.init : Metronome :=
  { isPlaying := false, timer := none, bpm := none, accent := 4,
    startTimeStamp := none, beatCount := none, rhythm := none }

/-- Frequency of the beep emitted when the pre-increment `#beatCount` is `j`:
`j % accentNote === accentNote - 1 || j === -1` selects 330 Hz, else 220 Hz. -/
def accentFreq (accentNote : ℚ) (j : ℤ) : ℚ :=
  if jsRem (j : ℚ) accentNote = accentNote - 1 ∨ j = -1 then 330 else 220

/-- Result of running the `while` loop of `_scheduler`: the `_playSound`
emissions, the final `nextNotetime` and `#beatCount`, and whether the loop
exited through its guard (`finished = false` means the fuel ran out first). -/
structure LoopResult where
  emissions : List Emission
  nextNotetime : ℚ
  beatCount : ℤ
  finished : Bool
deriving DecidableEq

/-- The `while (nextNotetime < currentTime + lookAheadTime)` loop of
`_scheduler`, with explicit fuel. Each iteration advances `nextNotetime` by
`secondsPerBeat`, emits at the advanced time with the accent decided on the
pre-increment `beatCount`, then increments `beatCount`. -/
def schedLoopF (accentNote spb lim : ℚ) : ℕ → ℚ → ℤ → LoopResult
  | 0, nnt, c => ⟨[], nnt, c, false⟩
  | fuel + 1, nnt, c =>
    if nnt < lim then
      let nnt2 := nnt + spb
      let r := schedLoopF accentNote spb lim fuel nnt2 (c + 1)
      ⟨⟨nnt2, accentFreq accentNote c⟩ :: r.emissions, r.nextNotetime,
        r.beatCount, r.finished⟩
    else ⟨[], nnt, c, true⟩

/-- Number of iterations the loop performs when `0 < spb` (zero when the
guard fails immediately). -/
def itersNeeded (spb lim nnt : ℚ) : ℕ := (⌈(lim - nnt) / spb⌉).toNat

/-- `_scheduler`: schedules every beat of the coming lookahead window and
re-arms itself via `setTimeout`. The loop is run with fuel that is
sufficient whenever `60 / bpm > 0`. -/
def Metronome.scheduler (m : Metronome) (now : ℚ) : Metronome × List Emission :=
  let accentNote := m.accent
  let secondsPerBeat := 60 / m.bpm.getD 0
  let c := m.beatCount.getD 0
  let nnt := m.startTimeStamp.getD 0 + c * secondsPerBeat
  let lim := now + lookAheadTime
  let r := schedLoopF accentNote secondsPerBeat lim
    (itersNeeded secondsPerBeat lim nnt + 1) nnt c
  ({ m with beatCount := some r.beatCount, timer := some TimerCb.tempo },
    r.emissions)

/-- The `while (rhythm.length > 0)` loop of `_schedulerForRhythmTrack`:
pops and emits front events until the first one past the lookahead bound
(`nextNoteTime > scheduleEndTime` breaks, so the bound is inclusive).
Structural recursion on the queue: the loop always terminates. -/
def rhythmLoop (startTs lim : ℚ) : List RhythmEvent → List Emission × List RhythmEvent
  | [] => ([], [])
  | e :: rest =>
    if lim < startTs + e.time then ([], e :: rest)
    else
      let r := rhythmLoop startTs lim rest
      (⟨startTs + e.time, if e.accent then 330 else 220⟩ :: r.1, r.2)

/-- `_schedulerForRhythmTrack`: drains the due prefix of the queue, then
re-arms itself only if the queue is still non-empty. (The source reads
`#rhythm` unconditionally; a state with `rhythm = none` is modelled as an
empty queue and is unreachable through the flows the claims concern.) -/
def Metronome.schedulerForRhythmTrack (m : Metronome) (now : ℚ) :
    Metronome × List Emission :=
  let lim := now + lookAheadTime
  let startTs := m.startTimeStamp.getD 0
  let r := rhythmLoop startTs lim (m.rhythm.getD [])
  if r.2.isEmpty then ({ m with rhythm := some r.2 }, r.1)
  else ({ m with rhythm := some r.2, timer := some TimerCb.rhythm }, r.1)

/-- `start(bpm, accent = 4)`: validates `!bpm || Number.isNaN(+bpm)` and
`!accent || Number.isNaN(+accent)` (a failed validation logs and returns,
leaving the state unchanged), then stores the coerced configuration, resets
`beatCount` to `-1` and `startTimeStamp` to the current clock time, and
synchronously runs `_scheduler` once. -/
def Metronome.start (m : Metronome) (bpm accent : JSNum) (now : ℚ) :
    Metronome × List Emission :=
  let accent := if accent = JSNum.undef then JSNum.num 4 else accent
  if !truthy bpm || jsIsNaN (toNum bpm) then (m, [])
  else if !truthy accent || jsIsNaN (toNum accent) then (m, [])
  else
    Metronome.scheduler
      { m with bpm := some (toQ (toNum bpm)), accent := toQ (toNum accent),
               isPlaying := true, beatCount := some (-1),
               startTimeStamp := some now } now

/-- `stop()`: `clearTimeout(#timerID)` (the pending tick, if any, will never
fire) and `#isPlaying = false`. Nothing else is touched. -/
def Metronome.stop (m : Metronome) : Metronome :=
  { m with timer := none, isPlaying := false }

/-- `toggle(bpm, accent = 4)`: stop if playing, otherwise start, falling
back to the stored `#bpm` when the argument is omitted (`undefined`). -/
def Metronome.toggle (m : Metronome) (bpm accent : JSNum) (now : ℚ) :
    Metronome × List Emission :=
  let accent := if accent = JSNum.undef then JSNum.num 4 else accent
  if m.isPlaying then (m.stop, [])
  else
    let bpm := if bpm = JSNum.undef then
        (match m.bpm with | none => JSNum.null | some q => JSNum.num q)
      else bpm
    m.start bpm accent now

/-- External events driving a `Metronome`: the public calls, and the firing
of the pending `setTimeout` (which consumes the pending-timer slot and runs
the armed callback at the then-current clock time). -/
inductive Ev where
  | evStart : JSNum → JSNum → ℚ → Ev
  | evToggle : JSNum → JSNum → ℚ → Ev
  | evStop : Ev
  | evTick : ℚ → Ev
deriving DecidableEq

/-- One event step. A tick event fires only when a timer is pending
(`clearTimeout` in `stop` removes the pending timer, so a cleared tick
never fires); firing consumes the pending slot before the callback runs.
This tracks only the handle stored in `#timerID` — the behaviour of the
most recently armed timeout; timeouts armed by an earlier `start` and
never cleared live only in the refined `stepS` semantics below. -/
def step (m : Metronome) : Ev → Metronome × List Emission
  | .evStart bpm accent now => m.start bpm accent now
  | .evToggle bpm accent now => m.toggle bpm accent now
  | .evStop => (m.stop, [])
  | .evTick now =>
    match m.timer with
    | none => (m, [])
    | some TimerCb.tempo => Metronome.scheduler { m with timer := none } now
    | some TimerCb.rhythm =>
        Metronome.schedulerForRhythmTrack { m with timer := none } now

/-- Run `_scheduler` once per given clock time, collecting all emissions. -/
def runTicks (m : Metronome) : List ℚ → Metronome × List Emission
  | [] => (m, [])
  | t :: ts =>
    let r := Metronome.scheduler m t
    let r2 := runTicks r.1 ts
    (r2.1, r.2 ++ r2.2)

/-- One uninterrupted playback session: `start(bpm, accent)` on a fresh
instance at clock time `t0` (whose synchronous `_scheduler` call is the
first tick), followed by ticker-driven `_scheduler` runs at the times `ts`. -/
def session (bpm accent t0 : ℚ) (ts : List ℚ) : Metronome × List Emission :=
  let r := Metronome.init.start (JSNum.num bpm) (JSNum.num accent) t0
  let r2 := runTicks r.1 ts
  (r2.1, r.2 ++ r2.2)

/-- The emission the session produces for beat index `k` (the `k`-th
`_playSound` since `start`): time `t0 + k * spb`, accent decided on the
pre-increment count `k - 1`. -/
def beatQ (t0 spb a : ℚ) (k : ℤ) : Emission := ⟨t0 + k * spb, accentFreq a (k - 1)⟩

/-- The integers `lo, lo+1, …, lo+n-1`. -/
def zrange (lo : ℤ) : ℕ → List ℤ
  | 0 => []
  | n + 1 => lo :: zrange (lo + 1) n

/-- The beats `lo, lo+1, …, hi` of a session, in order. -/
def beatsFromTo (t0 spb a : ℚ) (lo hi : ℤ) : List Emission :=
  (zrange lo (hi + 1 - lo).toNat).map (beatQ t0 spb a)

/-! ### The while loop of `_scheduler` in closed form -/

lemma itersNeeded_eq_zero {spb lim nnt : ℚ} (hs : 0 < spb) (h : ¬ nnt < lim) :
    itersNeeded spb lim nnt = 0 := by
  have hq : (lim - nnt) / spb ≤ 0 := by
    apply div_nonpos_of_nonpos_of_nonneg (by linarith) hs.le
  have : ⌈(lim - nnt) / spb⌉ ≤ 0 := by
    simpa using Int.ceil_le.mpr (by simpa using hq)
  simp [itersNeeded]
  omega

lemma itersNeeded_pos {spb lim nnt : ℚ} (hs : 0 < spb) (h : nnt < lim) :
    1 ≤ itersNeeded spb lim nnt := by
  have hq : 0 < (lim - nnt) / spb := div_pos (by linarith) hs
  have : 0 < ⌈(lim - nnt) / spb⌉ := Int.ceil_pos.mpr hq
  simp [itersNeeded]
  omega

lemma itersNeeded_succ {spb lim nnt : ℚ} (hs : 0 < spb) (h : nnt < lim) :
    itersNeeded spb lim (nnt + spb) + 1 = itersNeeded spb lim nnt := by
  have hdiv : (lim - (nnt + spb)) / spb = (lim - nnt) / spb - 1 := by
    field_simp
    ring
  have hceil : ⌈(lim - (nnt + spb)) / spb⌉ = ⌈(lim - nnt) / spb⌉ - 1 := by
    rw [hdiv]
    exact_mod_cast Int.ceil_sub_int ((lim - nnt) / spb) 1
  have hpos : 0 < ⌈(lim - nnt) / spb⌉ :=
    Int.ceil_pos.mpr (div_pos (by linarith) hs)
  simp [itersNeeded, hceil]
  omega

lemma schedLoopF_eq (a spb lim : ℚ) (hs : 0 < spb) :
    ∀ (fuel : ℕ) (nnt : ℚ) (c : ℤ), itersNeeded spb lim nnt < fuel →
      schedLoopF a spb lim fuel nnt c =
        ⟨(zrange (c + 1) (itersNeeded spb lim nnt)).map
            (fun k : ℤ => ⟨nnt + ((k - c : ℤ) : ℚ) * spb, accentFreq a (k - 1)⟩),
          nnt + itersNeeded spb lim nnt * spb,
          c + itersNeeded spb lim nnt, true⟩ := by
  intro fuel
  induction fuel with
  | zero => intro nnt c h; omega
  | succ f ih =>
    intro nnt c h
    by_cases hg : nnt < lim
    · have h1 : 1 ≤ itersNeeded spb lim nnt := itersNeeded_pos hs hg
      have hrec : itersNeeded spb lim (nnt + spb) + 1 = itersNeeded spb lim nnt :=
        itersNeeded_succ hs hg
      have hlt : itersNeeded spb lim (nnt + spb) < f := by omega
      have hIH := ih (nnt + spb) (c + 1) hlt
      simp only [schedLoopF, if_pos hg, hIH]
      obtain ⟨n', hn'⟩ : ∃ n', itersNeeded spb lim nnt = n' + 1 :=
        ⟨itersNeeded spb lim (nnt + spb), hrec.symm⟩
      have hn'' : itersNeeded spb lim (nnt + spb) = n' := by omega
      rw [hn', hn'', zrange]
      simp only [List.map_cons, LoopResult.mk.injEq]
      refine ⟨?_, by push_cast; ring, by push_cast; ring, trivial⟩
      refine congrArg₂ List.cons ?_ ?_
      · simp only [Emission.mk.injEq]
        constructor
        · push_cast; ring
        · norm_num
      · apply List.map_congr_left
        intro k _
        simp only [Emission.mk.injEq]
        constructor
        · push_cast; ring
        · norm_num
    · have h0 : itersNeeded spb lim nnt = 0 := itersNeeded_eq_zero hs hg
      simp [schedLoopF, if_neg hg, h0, zrange]

lemma schedLoopF_spin (a spb lim : ℚ) (hs : spb ≤ 0) :
    ∀ (fuel : ℕ) (nnt : ℚ) (c : ℤ), nnt < lim →
      (schedLoopF a spb lim fuel nnt c).finished = false := by
  intro fuel
  induction fuel with
  | zero => intro nnt c _; rfl
  | succ f ih =>
    intro nnt c hg
    have hg2 : nnt + spb < lim := by linarith
    simp [schedLoopF, if_pos hg, ih (nnt + spb) (c + 1) hg2]

/-! ### Arithmetic of integer ranges -/

lemma zrange_length (lo : ℤ) (n : ℕ) : (zrange lo n).length = n := by
  induction n generalizing lo with
  | zero => rfl
  | succ n ih => simp [zrange, ih]

lemma zrange_append (lo : ℤ) (m n : ℕ) :
    zrange lo m ++ zrange (lo + m) n = zrange lo (m + n) := by
  induction m generalizing lo with
  | zero => simp [zrange]
  | succ m ih =>
    have : lo + (m + 1 : ℕ) = (lo + 1) + (m : ℕ) := by push_cast; ring
    simp only [zrange, List.cons_append, this, ih (lo + 1)]
    rw [show m + 1 + n = (m + n) + 1 by omega, zrange]

lemma zrange_mem (lo : ℤ) (n : ℕ) (k : ℤ) :
    k ∈ zrange lo n ↔ lo ≤ k ∧ k < lo + n := by
  induction n generalizing lo with
  | zero => simp [zrange]
  | succ n ih =>
    simp only [zrange, List.mem_cons, ih (lo + 1)]
    constructor
    · rintro (rfl | ⟨h1, h2⟩) <;> constructor <;> push_cast <;> omega
    · rintro ⟨h1, h2⟩
      rcases eq_or_lt_of_le h1 with rfl | hlt
      · exact Or.inl rfl
      · exact Or.inr ⟨by omega, by push_cast at h2 ⊢; omega⟩

lemma zrange_pairwise (lo : ℤ) (n : ℕ) : (zrange lo n).Pairwise (· < ·) := by
  induction n generalizing lo with
  | zero => exact List.Pairwise.nil
  | succ n ih =>
    refine List.pairwise_cons.mpr ⟨?_, ih (lo + 1)⟩
    intro k hk
    have := (zrange_mem (lo + 1) n k).mp hk
    omega

lemma zrange_chain (lo : ℤ) (n : ℕ) :
    (zrange lo n).Chain' (fun j k => k = j + 1) := by
  induction n generalizing lo with
  | zero => exact List.chain'_nil
  | succ n ih =>
    refine List.chain'_cons'.mpr ⟨?_, ih (lo + 1)⟩
    intro y hy
    cases n with
    | zero => simp [zrange] at hy
    | succ n => simp [zrange] at hy; omega

lemma zrange_getElem (lo : ℤ) (n : ℕ) (i : ℕ) (h : i < (zrange lo n).length) :
    (zrange lo n)[i] = lo + i := by
  induction n generalizing lo i with
  | zero => simp [zrange_length] at h
  | succ n ih =>
    cases i with
    | zero => simp [zrange]
    | succ i =>
      rw [zrange_length] at h
      have hi : i < (zrange (lo + 1) n).length := by rw [zrange_length]; omega
      simp only [zrange, List.getElem_cons_succ, ih (lo + 1) i hi]
      push_cast
      ring

lemma beatsFromTo_empty (t0 spb a : ℚ) (lo hi : ℤ) (h : hi < lo) :
    beatsFromTo t0 spb a lo hi = [] := by
  unfold beatsFromTo
  rw [show (hi + 1 - lo).toNat = 0 by omega]
  rfl

lemma beatsFromTo_append (t0 spb a : ℚ) (lo mid hi : ℤ)
    (h1 : lo - 1 ≤ mid) (h2 : mid ≤ hi) :
    beatsFromTo t0 spb a lo mid ++ beatsFromTo t0 spb a (mid + 1) hi =
      beatsFromTo t0 spb a lo hi := by
  unfold beatsFromTo
  rw [← List.map_append]
  congr 1
  have hmid : mid + 1 = lo + ((mid + 1 - lo).toNat : ℤ) := by omega
  rw [show (hi + 1 - (mid + 1)).toNat = (hi - mid).toNat by omega,
    show (hi + 1 - lo).toNat = (mid + 1 - lo).toNat + (hi - mid).toNat by omega,
    ← zrange_append, ← hmid]

/-! ### `_scheduler` and sessions in closed form -/

/-- The configuration/progress fields a running tempo session relies on. -/
def Running (m : Metronome) (b a t0 : ℚ) (c : ℤ) : Prop :=
  m.bpm = some b ∧ m.accent = a ∧ m.startTimeStamp = some t0 ∧
    m.beatCount = some c

/-- The least beat count not less than `(t + lookAheadTime - t0) / spb`:
after a tick at clock time `t`, the beat count is the max of its old value
and this bound. -/
def windowCeil (b t0 t : ℚ) : ℤ := ⌈(t + lookAheadTime - t0) / (60 / b)⌉

lemma scheduler_spec (m : Metronome) (b a t0 now : ℚ) (c : ℤ) (hb : 0 < b)
    (hm : Running m b a t0 c) :
    m.scheduler now =
      ({ m with beatCount := some (max c (windowCeil b t0 now)),
                timer := some TimerCb.tempo },
        beatsFromTo t0 (60 / b) a (c + 1) (max c (windowCeil b t0 now))) := by
  obtain ⟨hbpm, hacc, hts, hc⟩ := hm
  have hspb : 0 < 60 / b := by positivity
  have hiter : itersNeeded (60 / b) (now + lookAheadTime) (t0 + c * (60 / b))
      = (windowCeil b t0 now - c).toNat := by
    unfold itersNeeded windowCeil
    congr 1
    rw [show (now + lookAheadTime - (t0 + c * (60 / b))) / (60 / b)
        = (now + lookAheadTime - t0) / (60 / b) - (c : ℚ) by field_simp; ring]
    exact_mod_cast Int.ceil_sub_int ((now + lookAheadTime - t0) / (60 / b)) c
  have hrun := schedLoopF_eq a (60 / b) (now + lookAheadTime) hspb
    (itersNeeded (60 / b) (now + lookAheadTime) (t0 + c * (60 / b)) + 1)
    (t0 + c * (60 / b)) c (Nat.lt_succ_self _)
  simp only [Metronome.scheduler, hbpm, hacc, hts, hc, Option.getD_some, hrun]
  rw [hiter,
    show c + (((windowCeil b t0 now - c).toNat : ℕ) : ℤ) = max c (windowCeil b t0 now)
      by omega]
  simp only [Prod.mk.injEq]
  refine ⟨trivial, ?_⟩
  · unfold beatsFromTo
    rw [show (max c (windowCeil b t0 now) + 1 - (c + 1)).toNat
        = (windowCeil b t0 now - c).toNat by omega]
    apply List.map_congr_left
    intro k _
    unfold beatQ
    simp only [Emission.mk.injEq]
    refine ⟨by push_cast; ring, trivial⟩

/-- Beat count reached after further ticks at the times `ts`, starting from
count `c`. -/
def sessionCeil (b t0 : ℚ) (c : ℤ) (ts : List ℚ) : ℤ :=
  ts.foldl (fun acc t => max acc (windowCeil b t0 t)) c

/-- The clock time of the last tick of a session (`t0` when no ticker-driven
tick followed the synchronous one in `start`). -/
def lastTime (t0 : ℚ) (ts : List ℚ) : ℚ := ts.getLastD t0

lemma le_sessionCeil (b t0 : ℚ) : ∀ (ts : List ℚ) (c : ℤ),
    c ≤ sessionCeil b t0 c ts := by
  intro ts
  induction ts with
  | nil => intro c; exact le_refl c
  | cons t ts ih =>
    intro c
    calc c ≤ max c (windowCeil b t0 t) := le_max_left _ _
    _ ≤ sessionCeil b t0 (max c (windowCeil b t0 t)) ts := ih _
    _ = sessionCeil b t0 c (t :: ts) := rfl

lemma runTicks_spec (b a t0 : ℚ) (hb : 0 < b) : ∀ (ts : List ℚ)
    (m : Metronome) (c : ℤ), Running m b a t0 c →
    Running (runTicks m ts).1 b a t0 (sessionCeil b t0 c ts) ∧
    (runTicks m ts).2 = beatsFromTo t0 (60 / b) a (c + 1) (sessionCeil b t0 c ts) := by
  intro ts
  induction ts with
  | nil =>
    intro m c hm
    refine ⟨hm, ?_⟩
    exact (beatsFromTo_empty t0 (60 / b) a (c + 1) c (by omega)).symm
  | cons t ts ih =>
    intro m c hm
    have hstep := scheduler_spec m b a t0 t c hb hm
    have hm' : Running (m.scheduler t).1 b a t0 (max c (windowCeil b t0 t)) := by
      rw [hstep]
      exact ⟨hm.1, hm.2.1, hm.2.2.1, rfl⟩
    obtain ⟨hrun, hemit⟩ := ih (m.scheduler t).1 (max c (windowCeil b t0 t)) hm'
    have hfold : sessionCeil b t0 c (t :: ts)
        = sessionCeil b t0 (max c (windowCeil b t0 t)) ts := rfl
    refine ⟨by rw [runTicks, hfold]; exact hrun, ?_⟩
    rw [runTicks, hfold]
    show (m.scheduler t).2 ++ (runTicks (m.scheduler t).1 ts).2 = _
    rw [hemit, hstep]
    exact beatsFromTo_append t0 (60 / b) a (c + 1) (max c (windowCeil b t0 t))
      (sessionCeil b t0 (max c (windowCeil b t0 t)) ts)
      (by omega) (le_sessionCeil b t0 ts _)

lemma windowCeil_mono (b t0 : ℚ) (hb : 0 < b) {s t : ℚ} (h : s ≤ t) :
    windowCeil b t0 s ≤ windowCeil b t0 t := by
  unfold windowCeil
  apply Int.ceil_mono
  have hspb : (0 : ℚ) < 60 / b := by positivity
  gcongr

lemma sessionCeil_last (b t0 : ℚ) (hb : 0 < b) : ∀ (ts : List ℚ) (t : ℚ),
    List.Chain' (· ≤ ·) (t :: ts) →
    sessionCeil b t0 (windowCeil b t0 t) ts = windowCeil b t0 (ts.getLastD t) := by
  intro ts
  induction ts with
  | nil => intro t _; rfl
  | cons u ts ih =>
    intro t hch
    rw [List.chain'_cons] at hch
    obtain ⟨htu, hch2⟩ := hch
    have h1 : max (windowCeil b t0 t) (windowCeil b t0 u) = windowCeil b t0 u :=
      max_eq_right (windowCeil_mono b t0 hb htu)
    show sessionCeil b t0 (max (windowCeil b t0 t) (windowCeil b t0 u)) ts = _
    rw [h1, List.getLastD_cons, ih u hch2]

lemma windowCeil_start_pos (b t0 : ℚ) (hb : 0 < b) : 0 < windowCeil b t0 t0 := by
  unfold windowCeil
  apply Int.ceil_pos.mpr
  rw [show t0 + lookAheadTime - t0 = lookAheadTime by ring]
  rw [lookAheadTime]
  positivity

lemma session_spec (b a t0 : ℚ) (ts : List ℚ) (hb : 0 < b) (ha : a ≠ 0) :
    Running (session b a t0 ts).1 b a t0
      (sessionCeil b t0 (windowCeil b t0 t0) ts) ∧
    (session b a t0 ts).2 =
      beatsFromTo t0 (60 / b) a 0 (sessionCeil b t0 (windowCeil b t0 t0) ts) := by
  have hbne : b ≠ 0 := ne_of_gt hb
  have hstart : Metronome.init.start (JSNum.num b) (JSNum.num a) t0
      = Metronome.scheduler
          ({ Metronome.init with
             bpm := some b, accent := a, isPlaying := true,
             beatCount := some (-1), startTimeStamp := some t0 }) t0 := by
    simp [Metronome.start, truthy, jsIsNaN, toNum, toQ, hbne, ha]
  have hm0 : Running ({ Metronome.init with
      bpm := some b, accent := a,
      isPlaying := true, beatCount := some (-1), startTimeStamp := some t0 })
      b a t0 (-1) := ⟨rfl, rfl, rfl, rfl⟩
  have hsch := scheduler_spec _ b a t0 t0 (-1) hb hm0
  have hmax : max (-1 : ℤ) (windowCeil b t0 t0) = windowCeil b t0 t0 :=
    max_eq_right (by have := windowCeil_start_pos b t0 hb; omega)
  rw [hmax] at hsch
  have hm1 : Running (Metronome.init.start (JSNum.num b) (JSNum.num a) t0).1
      b a t0 (windowCeil b t0 t0) := by
    rw [hstart, hsch]
    exact ⟨rfl, rfl, rfl, rfl⟩
  obtain ⟨hrun, hemit⟩ := runTicks_spec b a t0 hb ts _ _ hm1
  refine ⟨hrun, ?_⟩
  show (Metronome.init.start (JSNum.num b) (JSNum.num a) t0).2
      ++ (runTicks (Metronome.init.start (JSNum.num b) (JSNum.num a) t0).1 ts).2
      = _
  rw [hemit, hstart, hsch]
  show beatsFromTo t0 (60 / b) a (-1 + 1) (windowCeil b t0 t0) ++ _ = _
  rw [show (-1 : ℤ) + 1 = 0 by ring]
  exact beatsFromTo_append t0 (60 / b) a 0 (windowCeil b t0 t0) _
    (by have := windowCeil_start_pos b t0 hb; omega)
    (le_sessionCeil b t0 ts _)

lemma session_closed (b a t0 : ℚ) (ts : List ℚ) (hb : 0 < b) (ha : a ≠ 0)
    (hmono : List.Chain' (· ≤ ·) (t0 :: ts)) :
    (session b a t0 ts).2 =
      beatsFromTo t0 (60 / b) a 0 (windowCeil b t0 (lastTime t0 ts)) ∧
    (session b a t0 ts).1.beatCount = some (windowCeil b t0 (lastTime t0 ts)) := by
  have h := session_spec b a t0 ts hb ha
  have hlast := sessionCeil_last b t0 hb ts t0 hmono
  rw [hlast] at h
  exact ⟨h.2, h.1.2.2.2⟩

/-! ### The accent test on integer beat counts -/

lemma jsRem_int (j : ℤ) (hj : 0 ≤ j) (n : ℕ) (hn : 1 ≤ n) :
    jsRem (j : ℚ) (n : ℚ) = ((j % (n : ℤ) : ℤ) : ℚ) := by
  unfold jsRem jsTrunc
  have hdiv : (0 : ℚ) ≤ (j : ℚ) / (n : ℚ) := by
    apply div_nonneg
    · exact_mod_cast hj
    · positivity
  rw [if_pos hdiv, Rat.floor_intCast_div_natCast j n, Int.emod_def]
  push_cast
  ring

lemma mod_pred_iff (n : ℕ) (hn : 1 ≤ n) (j : ℤ) :
    j % (n : ℤ) = (n : ℤ) - 1 ↔ (j + 1) % (n : ℤ) = 0 := by
  have hex := Int.ediv_add_emod j (n : ℤ)
  constructor
  · intro h
    have hj1 : j + 1 = (n : ℤ) * (j / (n : ℤ) + 1) := by
      rw [mul_add, mul_one]
      omega
    rw [hj1]
    exact Int.mul_emod_right _ _
  · intro h
    obtain ⟨m, hm⟩ := Int.dvd_of_emod_eq_zero h
    have hj : j = ((n : ℤ) - 1) + (n : ℤ) * (m - 1) := by
      rw [mul_sub, mul_one]
      omega
    rw [hj, Int.add_mul_emod_self_left]
    apply Int.emod_eq_of_lt
    · omega
    · omega

lemma accentFreq_nat (n : ℕ) (hn : 1 ≤ n) (k : ℕ) :
    accentFreq (n : ℚ) ((k : ℤ) - 1) = if k % n = 0 then 330 else 220 := by
  cases k with
  | zero =>
    unfold accentFreq
    rw [if_pos (Or.inr (by norm_num)), if_pos (Nat.zero_mod n)]
  | succ j =>
    unfold accentFreq
    rw [show ((j + 1 : ℕ) : ℤ) - 1 = (j : ℤ) by push_cast; ring]
    have hrem : jsRem ((j : ℤ) : ℚ) (n : ℚ) = (((j : ℤ) % (n : ℤ) : ℤ) : ℚ) :=
      jsRem_int (j : ℤ) (by positivity) n hn
    have hne : ¬ ((j : ℤ) = -1) := by omega
    have hiff : (jsRem ((j : ℤ) : ℚ) (n : ℚ) = (n : ℚ) - 1 ∨ (j : ℤ) = -1)
        ↔ (j + 1) % n = 0 := by
      rw [hrem]
      constructor
      · rintro (h | h)
        · have h2 : (j : ℤ) % (n : ℤ) = (n : ℤ) - 1 := by exact_mod_cast h
          have h3 := (mod_pred_iff n hn (j : ℤ)).mp h2
          exact_mod_cast h3
        · exact absurd h hne
      · intro h
        left
        have h2 : ((j : ℤ) + 1) % (n : ℤ) = 0 := by
          have : (((j + 1) % n : ℕ) : ℤ) = 0 := by exact_mod_cast h
          push_cast at this
          omega
        have := (mod_pred_iff n hn (j : ℤ)).mpr h2
        exact_mod_cast congrArg (fun z : ℤ => (z : ℚ)) this
    by_cases h : (j + 1) % n = 0
    · rw [if_pos (hiff.mpr h), if_pos h]
    · rw [if_neg (fun hc => h (hiff.mp hc)), if_neg h]

/-! ### Order, uniqueness and membership of session emissions -/

lemma beatQ_inj (t0 spb a : ℚ) (hspb : 0 < spb) {j k : ℤ}
    (h : beatQ t0 spb a j = beatQ t0 spb a k) : j = k := by
  have ht : t0 + (j : ℚ) * spb = t0 + (k : ℚ) * spb := congrArg Emission.time h
  have h2 : (j : ℚ) * spb = (k : ℚ) * spb := by linarith
  have h3 : (j : ℚ) = (k : ℚ) := mul_right_cancel₀ (ne_of_gt hspb) h2
  exact_mod_cast h3

lemma beatsFromTo_pairwise (t0 spb a : ℚ) (hspb : 0 < spb) (lo hi : ℤ) :
    (beatsFromTo t0 spb a lo hi).Pairwise (fun e f => e.time < f.time) := by
  unfold beatsFromTo
  rw [List.pairwise_map]
  apply (zrange_pairwise lo _).imp
  intro j k hjk
  unfold beatQ
  have hq : (j : ℚ) < (k : ℚ) := by exact_mod_cast hjk
  have := mul_lt_mul_of_pos_right hq hspb
  simpa using this

lemma mem_beatsFromTo (t0 spb a : ℚ) (hspb : 0 < spb) (lo hi k : ℤ) :
    beatQ t0 spb a k ∈ beatsFromTo t0 spb a lo hi ↔ lo ≤ k ∧ k ≤ hi := by
  unfold beatsFromTo
  rw [List.mem_map]
  constructor
  · rintro ⟨k', hk', he⟩
    have hk := (zrange_mem lo _ k').mp hk'
    have hkk : k' = k := beatQ_inj t0 spb a hspb he
    subst hkk
    omega
  · rintro ⟨h1, h2⟩
    exact ⟨k, (zrange_mem _ _ _).mpr ⟨h1, by omega⟩, rfl⟩

lemma beatsFromTo_sound (t0 spb a : ℚ) (lo hi : ℤ) :
    ∀ e ∈ beatsFromTo t0 spb a lo hi, ∃ k : ℤ, lo ≤ k ∧ k ≤ hi ∧
      e = beatQ t0 spb a k := by
  intro e he
  unfold beatsFromTo at he
  rw [List.mem_map] at he
  obtain ⟨k, hk, he⟩ := he
  have := (zrange_mem lo _ k).mp hk
  exact ⟨k, this.1, by omega, he.symm⟩

/-! ### The rhythm-track loop in closed form -/

/-- The front events `_schedulerForRhythmTrack` pops at clock time `now`:
those whose absolute time is at most the lookahead bound (inclusive). -/
def dueBy (startTs lim : ℚ) (e : RhythmEvent) : Bool := startTs + e.time ≤ lim

lemma rhythmLoop_eq (startTs lim : ℚ) : ∀ q : List RhythmEvent,
    rhythmLoop startTs lim q =
      ((q.takeWhile (dueBy startTs lim)).map
          (fun e => ⟨startTs + e.time, if e.accent then 330 else 220⟩),
        q.dropWhile (dueBy startTs lim)) := by
  intro q
  induction q with
  | nil => rfl
  | cons e rest ih =>
    by_cases h : lim < startTs + e.time
    · have hd : dueBy startTs lim e = false := by
        simp only [dueBy, decide_eq_false_iff_not]
        linarith
      rw [rhythmLoop, if_pos h, List.takeWhile_cons, List.dropWhile_cons, hd]
      rfl
    · have hd : dueBy startTs lim e = true := by
        simp only [dueBy, decide_eq_true_eq]
        linarith
      rw [rhythmLoop, if_neg h, List.takeWhile_cons, List.dropWhile_cons, hd, ih]
      rfl

lemma lt_windowCeil_iff (b t0 t : ℚ) (hb : 0 < b) (z : ℤ) :
    z < windowCeil b t0 t ↔ (z : ℚ) * (60 / b) < t + lookAheadTime - t0 := by
  unfold windowCeil
  rw [Int.lt_ceil, lt_div_iff₀ (by positivity)]

lemma windowCeil_le_iff (b t0 t : ℚ) (hb : 0 < b) (z : ℤ) :
    windowCeil b t0 t ≤ z ↔ t + lookAheadTime - t0 ≤ (z : ℚ) * (60 / b) := by
  unfold windowCeil
  rw [Int.ceil_le, div_le_iff₀ (by positivity)]

/-! ### The claims -/

/-- Claim C1: for every valid started configuration (`bpm > 0`,
`accentEvery ≥ 1`) and every monotone sequence of tick times, the session
emits every beat whose target time lies in the elapsed lookahead windows
exactly once, with no duplicates, in strictly increasing time order; every
emission is a beat whose pre-increment note time satisfied some window
guard, and each tick's loop stops only once the window is exhausted (the
final `beatCount` places the next note time at or past the last window's
bound), never after a fixed iteration count. -/
theorem tick_no_beat_loss (b a t0 : ℚ) (ts : List ℚ) (hb : 0 < b) (ha : 1 ≤ a)
    (hmono : List.Chain' (· ≤ ·) (t0 :: ts)) :
    (∀ k : ℤ, 0 ≤ k →
        t0 + (k : ℚ) * (60 / b) < lastTime t0 ts + lookAheadTime →
        (session b a t0 ts).2.count (beatQ t0 (60 / b) a k) = 1) ∧
    (session b a t0 ts).2.Pairwise (fun e f => e.time < f.time) ∧
    (∀ e ∈ (session b a t0 ts).2, ∃ k : ℤ, 0 ≤ k ∧ e = beatQ t0 (60 / b) a k ∧
        t0 + ((k : ℚ) - 1) * (60 / b) < lastTime t0 ts + lookAheadTime) ∧
    (∃ cf : ℤ, (session b a t0 ts).1.beatCount = some cf ∧
        lastTime t0 ts + lookAheadTime ≤ t0 + (cf : ℚ) * (60 / b)) := by
  have ha0 : a ≠ 0 := by
    intro h
    rw [h] at ha
    norm_num at ha
  have hspb : (0 : ℚ) < 60 / b := by positivity
  obtain ⟨hes, hbc⟩ := session_closed b a t0 ts hb ha0 hmono
  have hpair : (session b a t0 ts).2.Pairwise (fun e f => e.time < f.time) := by
    rw [hes]
    exact beatsFromTo_pairwise t0 (60 / b) a hspb 0 _
  have hnodup : (session b a t0 ts).2.Nodup := by
    apply hpair.imp
    intro e f hef heq
    rw [heq] at hef
    exact lt_irrefl _ hef
  refine ⟨?_, hpair, ?_, ?_⟩
  · intro k hk0 hkwin
    have hkW : k < windowCeil b t0 (lastTime t0 ts) := by
      rw [lt_windowCeil_iff b t0 _ hb k]
      linarith
    have hmem : beatQ t0 (60 / b) a k ∈ (session b a t0 ts).2 := by
      rw [hes]
      exact (mem_beatsFromTo t0 (60 / b) a hspb 0 _ k).mpr ⟨hk0, by omega⟩
    exact List.count_eq_one_of_mem hnodup hmem
  · intro e he
    rw [hes] at he
    obtain ⟨k, hk0, hkW, hke⟩ := beatsFromTo_sound t0 (60 / b) a 0 _ e he
    refine ⟨k, hk0, hke, ?_⟩
    have h2 : (k - 1 : ℤ) < windowCeil b t0 (lastTime t0 ts) := by omega
    have h3 := (lt_windowCeil_iff b t0 _ hb (k - 1)).mp h2
    push_cast at h3
    linarith
  · refine ⟨windowCeil b t0 (lastTime t0 ts), hbc, ?_⟩
    have h4 := (windowCeil_le_iff b t0 (lastTime t0 ts) hb
      (windowCeil b t0 (lastTime t0 ts))).mp le_rfl
    linarith

/-- Witness for C1: at 600 bpm, accent every 4th, a session consisting of
the single synchronous tick of `start` at clock time 0. -/
theorem tick_no_beat_loss_witness :
    (0 : ℚ) < 600 ∧ (1 : ℚ) ≤ 4 ∧ List.Chain' (· ≤ ·) [(0 : ℚ)] ∧
    ((∀ k : ℤ, 0 ≤ k →
        0 + (k : ℚ) * (60 / 600) < lastTime 0 [] + lookAheadTime →
        (session 600 4 0 []).2.count (beatQ 0 (60 / 600) 4 k) = 1) ∧
      (session 600 4 0 []).2.Pairwise (fun e f => e.time < f.time) ∧
      (∀ e ∈ (session 600 4 0 []).2, ∃ k : ℤ, 0 ≤ k ∧
          e = beatQ 0 (60 / 600) 4 k ∧
          0 + ((k : ℚ) - 1) * (60 / 600) < lastTime 0 [] + lookAheadTime) ∧
      (∃ cf : ℤ, (session 600 4 0 []).1.beatCount = some cf ∧
          lastTime 0 [] + lookAheadTime ≤ 0 + (cf : ℚ) * (60 / 600))) :=
  ⟨by decide, by decide, List.chain'_singleton _,
    tick_no_beat_loss 600 4 0 [] (by decide) (by decide)
      (List.chain'_singleton _)⟩

/-- Claim C2: within one uninterrupted session with a configuration
accepted by `start`, consecutive emitted beat times differ by exactly
`60 / bpm` seconds, and the emitted times are monotonically
non-decreasing. -/
theorem beat_spacing_exact (b a t0 : ℚ) (ts : List ℚ) (hb : 0 < b)
    (ha : a ≠ 0) (hmono : List.Chain' (· ≤ ·) (t0 :: ts)) :
    (session b a t0 ts).2.Chain' (fun e f => f.time = e.time + 60 / b) ∧
    (session b a t0 ts).2.Chain' (fun e f => e.time ≤ f.time) := by
  have hspb : (0 : ℚ) < 60 / b := by positivity
  obtain ⟨hes, _⟩ := session_closed b a t0 ts hb ha hmono
  have hstep : (session b a t0 ts).2.Chain' (fun e f => f.time = e.time + 60 / b) := by
    rw [hes]
    unfold beatsFromTo
    rw [List.chain'_map]
    apply (zrange_chain 0 _).imp
    intro j k hjk
    subst hjk
    unfold beatQ
    push_cast
    ring
  refine ⟨hstep, hstep.imp ?_⟩
  intro e f hef
  rw [hef]
  linarith

/-- Witness for C2: a 120 bpm session started at clock time 0 with one
further tick at clock time 1. -/
theorem beat_spacing_exact_witness :
    (0 : ℚ) < 120 ∧ (4 : ℚ) ≠ 0 ∧ List.Chain' (· ≤ ·) [(0 : ℚ), 1] ∧
    ((session 120 4 0 [1]).2.Chain' (fun e f => f.time = e.time + 60 / 120) ∧
      (session 120 4 0 [1]).2.Chain' (fun e f => e.time ≤ f.time)) :=
  ⟨by decide, by decide,
    List.chain'_cons.mpr ⟨by decide, List.chain'_singleton _⟩,
    beat_spacing_exact 120 4 0 [1] (by decide) (by decide)
      (List.chain'_cons.mpr ⟨by decide, List.chain'_singleton _⟩)⟩

/-- Claim C3: in a session with `accentEvery = n ≥ 1`, the `i`-th emitted
beat is at the accent frequency 330 Hz exactly when `i` is a multiple of
`n`, and at 220 Hz otherwise; in particular the first emitted beat
(`i = 0`) is always accented, because the accent test uses the
pre-increment `beatCount`. -/
theorem accent_every_nth (b t0 : ℚ) (n : ℕ) (ts : List ℚ) (hb : 0 < b)
    (hn : 1 ≤ n) (hmono : List.Chain' (· ≤ ·) (t0 :: ts)) :
    ∀ (i : ℕ) (h : i < (session b (n : ℚ) t0 ts).2.length),
      ((session b (n : ℚ) t0 ts).2[i]).frequency
        = if i % n = 0 then 330 else 220 := by
  have hn0 : (n : ℚ) ≠ 0 := by
    simp only [ne_eq, Nat.cast_eq_zero]
    omega
  obtain ⟨hes, _⟩ := session_closed b (n : ℚ) t0 ts hb hn0 hmono
  intro i h
  have hlen : i < (beatsFromTo t0 (60 / b) (n : ℚ) 0
      (windowCeil b t0 (lastTime t0 ts))).length := by
    rw [← hes]
    exact h
  have hget : (session b (n : ℚ) t0 ts).2[i]
      = beatQ t0 (60 / b) (n : ℚ) (0 + i) := by
    have := List.getElem_of_eq hes h
    rw [this]
    unfold beatsFromTo at hlen ⊢
    rw [List.getElem_map]
    congr 1
    exact zrange_getElem 0 _ i (by simpa [zrange_length] using hlen)
  rw [hget]
  unfold beatQ
  simp only [zero_add]
  exact accentFreq_nat n hn i

/-- Witness for C3: the six beats of the first tick of a 600 bpm session
with accent every 4th beat. -/
theorem accent_every_nth_witness :
    (0 : ℚ) < 600 ∧ 1 ≤ 4 ∧ List.Chain' (· ≤ ·) [(0 : ℚ)] ∧
    (∀ (i : ℕ) (h : i < (session 600 ((4 : ℕ) : ℚ) 0 []).2.length),
      ((session 600 ((4 : ℕ) : ℚ) 0 []).2[i]).frequency
        = if i % 4 = 0 then 330 else 220) :=
  ⟨by decide, by decide, List.chain'_singleton _,
    accent_every_nth 600 0 4 [] (by decide) (by decide)
      (List.chain'_singleton _)⟩

/-- Claim C4 counterexample: `start(-120, 4)` is NOT rejected, although
`-120` is non-positive: validation only tests falsiness and NaN, so the
call starts playback and overwrites the prior state. -/
theorem start_negative_bpm_not_rejected :
    (Metronome.init.start (JSNum.num (-120)) (JSNum.num 4) 0).1.isPlaying = true ∧
    (Metronome.init.start (JSNum.num (-120)) (JSNum.num 4) 0).1.bpm = some (-120) ∧
    Metronome.init.isPlaying = false := by
  refine ⟨?_, ?_, rfl⟩ <;>
    norm_num [Metronome.start, Metronome.scheduler, schedLoopF, itersNeeded,
      truthy, toNum, jsIsNaN, toQ, accentFreq, jsRem, jsTrunc, lookAheadTime,
      Metronome.init]

/-- Claim C4 (amended): `start(bpm, accent)` is rejected — a no-op that
preserves the entire prior state and emits nothing — exactly when `bpm` or
the defaulted `accent` is falsy (`0`, `NaN`, `null`, `undefined`) or
coerces to NaN. Negative values are truthy and are NOT rejected. -/
theorem start_rejects_falsy_or_nan (m : Metronome) (bpm accent : JSNum)
    (now : ℚ)
    (h : (!truthy bpm || jsIsNaN (toNum bpm)) = true ∨
      (!truthy (if accent = JSNum.undef then JSNum.num 4 else accent)
        || jsIsNaN (toNum (if accent = JSNum.undef then JSNum.num 4 else accent)))
        = true) :
    m.start bpm accent now = (m, []) := by
  unfold Metronome.start
  rcases h with h | h
  · simp [h]
  · by_cases h1 : (!truthy bpm || jsIsNaN (toNum bpm)) = true
    · simp [h1]
    · simp [h1, h]

/-- Witness for the amended C4: `start(0, 4)` is a no-op on a fresh
instance. -/
theorem start_rejects_falsy_or_nan_witness :
    ((!truthy (JSNum.num 0) || jsIsNaN (toNum (JSNum.num 0))) = true ∨
      (!truthy (if (JSNum.num 4 : JSNum) = JSNum.undef then JSNum.num 4
          else JSNum.num 4)
        || jsIsNaN (toNum (if (JSNum.num 4 : JSNum) = JSNum.undef then JSNum.num 4
          else JSNum.num 4))) = true) ∧
    Metronome.init.start (JSNum.num 0) (JSNum.num 4) 0 = (Metronome.init, []) :=
  ⟨Or.inl (by decide),
    start_rejects_falsy_or_nan Metronome.init (JSNum.num 0) (JSNum.num 4) 0
      (Or.inl (by decide))⟩

/-- Claim C5: `start(120, 4)` at clock time 0 (lookahead 0.5 s) emits, in
its immediate synchronous first tick, exactly beat 0 at time 0 (accented)
and beat 1 at time 1/2 — the beat whose target time equals exactly
`now + lookAheadTime` is emitted although the loop guard uses strict `<`,
because the guard tests the pre-increment note time. -/
theorem boundary_beat_emitted :
    (Metronome.init.start (JSNum.num 120) (JSNum.num 4) 0).2
      = [⟨0, 330⟩, ⟨1 / 2, 220⟩] ∧
    (1 / 2 : ℚ) = 0 + lookAheadTime ∧
    (Metronome.init.start (JSNum.num 120) (JSNum.num 4) 0).1.beatCount
      = some 1 := by
  refine ⟨?_, by norm_num [lookAheadTime], ?_⟩ <;>
    norm_num [Metronome.start, Metronome.scheduler, schedLoopF, itersNeeded,
      truthy, toNum, jsIsNaN, toQ, accentFreq, jsRem, jsTrunc, lookAheadTime,
      Metronome.init]

/-- Claim C6: a rhythm-track tick pops and emits exactly the front prefix
of the queue due by `now + lookAheadTime` (boundary inclusive), each event
at absolute time `startTimestamp + offsetSeconds` with 330 Hz if accented
else 220 Hz; popped events are removed from the queue (at-most-once
delivery), and once the queue is empty no further tick is scheduled — a
subsequent tick event is a no-op — otherwise the next tick is armed. -/
theorem rhythm_tick_drains_due_prefix (m : Metronome) (q : List RhythmEvent)
    (t0 now : ℚ) (hq : m.rhythm = some q) (hts : m.startTimeStamp = some t0)
    (htm : m.timer = some TimerCb.rhythm) :
    (step m (Ev.evTick now)).2
      = (q.takeWhile (dueBy t0 (now + lookAheadTime))).map
          (fun e => ⟨t0 + e.time, if e.accent then 330 else 220⟩) ∧
    (step m (Ev.evTick now)).1.rhythm
      = some (q.dropWhile (dueBy t0 (now + lookAheadTime))) ∧
    q.takeWhile (dueBy t0 (now + lookAheadTime))
        ++ q.dropWhile (dueBy t0 (now + lookAheadTime)) = q ∧
    ((step m (Ev.evTick now)).1.timer
      = if q.dropWhile (dueBy t0 (now + lookAheadTime)) = [] then none
        else some TimerCb.rhythm) ∧
    (q.dropWhile (dueBy t0 (now + lookAheadTime)) = [] →
      ∀ t : ℚ, step (step m (Ev.evTick now)).1 (Ev.evTick t)
        = ((step m (Ev.evTick now)).1, [])) := by
  have hstep : step m (Ev.evTick now)
      = Metronome.schedulerForRhythmTrack ({ m with timer := none }) now := by
    unfold step
    rw [htm]
  rw [hstep]
  unfold Metronome.schedulerForRhythmTrack
  simp only [hts, hq, Option.getD_some, rhythmLoop_eq t0 (now + lookAheadTime) q]
  refine ⟨?_, ?_, by rw [List.takeWhile_append_dropWhile], ?_, ?_⟩
  · split <;> rfl
  · split <;> rfl
  · rcases hdw : q.dropWhile (dueBy t0 (now + lookAheadTime)) with _ | ⟨x, xs⟩
    · simp [hdw]
    · simp [hdw]
  · intro hD t
    simp [hD, step]

/-- State used by the C6 witness: a rhythm queue with one due event and one
event beyond the first lookahead window. -/
def rhythmDemo : Metronome :=
  { Metronome.init with
    rhythm := some [⟨0, true⟩, ⟨10, false⟩], startTimeStamp := some 0,
    timer := some TimerCb.rhythm }

/-- Witness for C6: ticking `rhythmDemo` at clock time 0. -/
theorem rhythm_tick_drains_due_prefix_witness :
    rhythmDemo.rhythm = some [⟨0, true⟩, ⟨10, false⟩] ∧
    rhythmDemo.startTimeStamp = some 0 ∧
    rhythmDemo.timer = some TimerCb.rhythm ∧
    ((step rhythmDemo (Ev.evTick 0)).2
      = (([⟨0, true⟩, ⟨10, false⟩] : List RhythmEvent).takeWhile
            (dueBy 0 (0 + lookAheadTime))).map
          (fun e => ⟨0 + e.time, if e.accent then 330 else 220⟩) ∧
    (step rhythmDemo (Ev.evTick 0)).1.rhythm
      = some (([⟨0, true⟩, ⟨10, false⟩] : List RhythmEvent).dropWhile
          (dueBy 0 (0 + lookAheadTime))) ∧
    ([⟨0, true⟩, ⟨10, false⟩] : List RhythmEvent).takeWhile
          (dueBy 0 (0 + lookAheadTime))
        ++ ([⟨0, true⟩, ⟨10, false⟩] : List RhythmEvent).dropWhile
          (dueBy 0 (0 + lookAheadTime)) = [⟨0, true⟩, ⟨10, false⟩] ∧
    ((step rhythmDemo (Ev.evTick 0)).1.timer
      = if ([⟨0, true⟩, ⟨10, false⟩] : List RhythmEvent).dropWhile
            (dueBy 0 (0 + lookAheadTime)) = [] then none
        else some TimerCb.rhythm) ∧
    (([⟨0, true⟩, ⟨10, false⟩] : List RhythmEvent).dropWhile
          (dueBy 0 (0 + lookAheadTime)) = [] →
      ∀ t : ℚ, step (step rhythmDemo (Ev.evTick 0)).1 (Ev.evTick t)
        = ((step rhythmDemo (Ev.evTick 0)).1, []))) :=
  ⟨rfl, rfl, rfl,
    rhythm_tick_drains_due_prefix rhythmDemo [⟨0, true⟩, ⟨10, false⟩] 0 0
      rfl rfl rfl⟩

/-- Claim C7: `stop()` is idempotent — stopping twice equals stopping once,
and stopping an already-stopped metronome (not playing, no pending timer)
changes nothing. -/
theorem stop_idempotent :
    (∀ m : Metronome, m.stop.stop = m.stop) ∧
    (∀ m : Metronome, m.isPlaying = false → m.timer = none → m.stop = m) := by
  constructor
  · intro m
    rfl
  · intro m h1 h2
    unfold Metronome.stop
    cases m
    simp only at h1 h2
    subst h1
    subst h2
    rfl

/-- Witness for C7: stopping the fresh instance changes nothing. -/
theorem stop_idempotent_witness : Metronome.init.stop = Metronome.init :=
  stop_idempotent.2 Metronome.init rfl rfl

/-! ### Refined timer semantics: the full `setTimeout` environment

The source stores only the handle of its latest `setTimeout` in `#timerID`
and `start` never calls `clearTimeout`, so a `start` issued while a tick is
pending leaves the older timeout alive: several live timeouts can exist at
once, and `stop` cancels only the stored (most recent) handle. `MState`
models the instance fields together with the event loop's set of live
timeouts, each with its own handle. -/

/-- Instance fields plus the event-loop timer environment. `timerID` is the
`#timerID` field (the handle returned by the LAST `setTimeout`); `pending`
holds every armed, not-yet-fired, not-yet-cleared timeout with its handle
and callback; `nextID` supplies fresh handles. -/
structure MState where
  isPlaying : Bool
  timerID : Option ℕ
  bpm : Option ℚ
  accent : ℚ
  startTimeStamp : Option ℚ
  beatCount : Option ℤ
  rhythm : Option (List RhythmEvent)
  pending : List (ℕ × TimerCb)
  nextID : ℕ
deriving DecidableEq

/-- Field initialisers of the class, with an empty timer environment. -/
def MState.init : MState :=
  { isPlaying := false, timerID := none, bpm := none, accent := 4,
    startTimeStamp := none, beatCount := none, rhythm := none,
    pending := [], nextID := 0 }

/-- `this.#timerID = setTimeout(cb, ...)`: registers a fresh live timeout
and overwrites the stored handle — without cancelling the old timeout. -/
def MState.setT (s : MState) (cb : TimerCb) : MState :=
  { s with pending := s.pending ++ [(s.nextID, cb)],
           timerID := some s.nextID, nextID := s.nextID + 1 }

/-- `clearTimeout(this.#timerID)`: removes the stored handle's timeout if
it is still live; a no-op on `null` or an already-fired handle. Timeouts
under other (older, overwritten) handles stay live. -/
def MState.clearT (s : MState) : MState :=
  match s.timerID with
  | none => s
  | some tid => { s with pending := s.pending.filter (fun p => p.1 != tid) }

/-- `_scheduler` in the refined model: the identical loop, then
`#timerID = setTimeout(_scheduler, ...)`. -/
def MState.schedulerS (s : MState) (now : ℚ) : MState × List Emission :=
  let accentNote := s.accent
  let secondsPerBeat := 60 / s.bpm.getD 0
  let c := s.beatCount.getD 0
  let nnt := s.startTimeStamp.getD 0 + c * secondsPerBeat
  let lim := now + lookAheadTime
  let r := schedLoopF accentNote secondsPerBeat lim
    (itersNeeded secondsPerBeat lim nnt + 1) nnt c
  (({ s with beatCount := some r.beatCount }).setT TimerCb.tempo, r.emissions)

/-- `_schedulerForRhythmTrack` in the refined model. -/
def MState.rhythmS (s : MState) (now : ℚ) : MState × List Emission :=
  let lim := now + lookAheadTime
  let startTs := s.startTimeStamp.getD 0
  let r := rhythmLoop startTs lim (s.rhythm.getD [])
  if r.2.isEmpty then ({ s with rhythm := some r.2 }, r.1)
  else (({ s with rhythm := some r.2 }).setT TimerCb.rhythm, r.1)

/-- `start` in the refined model: identical validation and resets. Note it
never clears a pending timeout — the source has no `clearTimeout` in
`start` — so a timeout armed before this call stays live. -/
def MState.startS (s : MState) (bpm accent : JSNum) (now : ℚ) :
    MState × List Emission :=
  let accent := if accent = JSNum.undef then JSNum.num 4 else accent
  if !truthy bpm || jsIsNaN (toNum bpm) then (s, [])
  else if !truthy accent || jsIsNaN (toNum accent) then (s, [])
  else
    MState.schedulerS
      { s with bpm := some (toQ (toNum bpm)), accent := toQ (toNum accent),
               isPlaying := true, beatCount := some (-1),
               startTimeStamp := some now } now

/-- `stop()` in the refined model: `clearTimeout(#timerID)` — cancelling
only the most recently stored live handle — then `#isPlaying = false`. -/
def MState.stopS (s : MState) : MState :=
  { s.clearT with isPlaying := false }

/-- External events in the refined model: the public calls, and the event
loop firing the live timeout with a given handle at the current clock
time. -/
inductive SEv where
  | sStart : JSNum → JSNum → ℚ → SEv
  | sStop : SEv
  | sFire : ℕ → ℚ → SEv
deriving DecidableEq

/-- One step of the refined semantics. `sFire tid now` fires the live
timeout `tid`: it is consumed and its callback runs; firing a handle that
is not live (never armed, already fired, or cleared) is a no-op. -/
def stepS (s : MState) : SEv → MState × List Emission
  | .sStart bpm accent now => s.startS bpm accent now
  | .sStop => (s.stopS, [])
  | .sFire tid now =>
    match s.pending.find? (fun p => p.1 == tid) with
    | none => (s, [])
    | some (_, cb) =>
      let s2 : MState := { s with pending := s.pending.filter (fun p => p.1 != tid) }
      match cb with
      | TimerCb.tempo => s2.schedulerS now
      | TimerCb.rhythm => s2.rhythmS now

/-- Run a sequence of refined events, collecting all emissions in order. -/
def runS (s : MState) : List SEv → MState × List Emission
  | [] => (s, [])
  | e :: es =>
    let r := stepS s e
    let r2 := runS r.1 es
    (r2.1, r.2 ++ r2.2)

/-- Claim C8 counterexample: `start(120, 4)` at time 0, `start(120, 4)`
again while the first tick's timeout (handle 0) is still pending, then
`stop()`. The state is stopped, yet the timeout armed by the first start
survives — `start` never cleared it and `stop` cancelled only the stored
handle 1 — and when it fires at clock time 1 it runs `_scheduler`, which
ignores `isPlaying`, and emits the beats at times 1 and 3/2. -/
theorem stop_then_stale_tick_fires :
    (runS MState.init
        [SEv.sStart (JSNum.num 120) (JSNum.num 4) 0,
         SEv.sStart (JSNum.num 120) (JSNum.num 4) 0,
         SEv.sStop]).1.isPlaying = false ∧
    (runS MState.init
        [SEv.sStart (JSNum.num 120) (JSNum.num 4) 0,
         SEv.sStart (JSNum.num 120) (JSNum.num 4) 0,
         SEv.sStop]).1.pending = [(0, TimerCb.tempo)] ∧
    (stepS (runS MState.init
        [SEv.sStart (JSNum.num 120) (JSNum.num 4) 0,
         SEv.sStart (JSNum.num 120) (JSNum.num 4) 0,
         SEv.sStop]).1 (SEv.sFire 0 1)).2
      = [⟨1, 220⟩, ⟨3 / 2, 220⟩] := by
  refine ⟨?_, ?_, ?_⟩ <;>
    norm_num [runS, stepS, MState.startS, MState.stopS, MState.clearT,
      MState.setT, MState.schedulerS, MState.init, schedLoopF, itersNeeded,
      truthy, toNum, jsIsNaN, toQ, accentFreq, jsRem, jsTrunc, lookAheadTime,
      List.find?_cons, List.filter_cons]

lemma stopS_pending_empty (s : MState)
    (hp : ∀ p ∈ s.pending, some p.1 = s.timerID) :
    s.stopS.pending = [] := by
  unfold MState.stopS MState.clearT
  cases h : s.timerID with
  | none =>
    simp only
    rw [List.eq_nil_iff_forall_not_mem]
    intro p hpmem
    have := hp p hpmem
    rw [h] at this
    exact Option.noConfusion this
  | some tid =>
    simp only
    rw [List.filter_eq_nil_iff]
    intro p hpmem
    have h2 := hp p hpmem
    rw [h] at h2
    simp [Option.some_inj.mp h2]

lemma runS_inert : ∀ (evs : List SEv) (s : MState),
    s.pending = [] → s.isPlaying = false →
    (∀ e ∈ evs, e = SEv.sStop ∨ ∃ (tid : ℕ) (t : ℚ), e = SEv.sFire tid t) →
    (runS s evs).2 = [] ∧ (runS s evs).1.pending = [] ∧
      (runS s evs).1.isPlaying = false := by
  intro evs
  induction evs with
  | nil =>
    intro s h1 h2 _
    exact ⟨rfl, h1, h2⟩
  | cons e evs ih =>
    intro s h1 h2 hall
    have htail := fun e he => hall e (List.mem_cons_of_mem _ he)
    rcases hall e (List.mem_cons_self e evs) with he | ⟨tid, t, he⟩
    · subst he
      have hstopP : s.stopS.pending = [] := by
        unfold MState.stopS MState.clearT
        cases hid : s.timerID with
        | none => simpa using h1
        | some tid => simp [h1]
      have hrec := ih s.stopS hstopP rfl htail
      simpa [runS, stepS] using hrec
    · subst he
      have hstep : stepS s (SEv.sFire tid t) = (s, []) := by
        unfold stepS
        rw [h1]
        rfl
      have hrec := ih s h1 h2 htail
      simp only [runS, hstep]
      simpa using hrec

/-- Claim C8 (amended): after `stop()` the tick whose handle is stored in
`#timerID` never fires; and when that stored handle is the only live
timeout at the moment of `stop()` — which holds whenever `start` was never
invoked while a tick was pending — no tick of the scheduler fires at all
and no beat is emitted, under every following sequence of stop calls and
timeout firings, until a subsequent start. -/
theorem stop_prevents_ticks_single_pending (s : MState) (evs : List SEv)
    (hp : ∀ p ∈ s.pending, some p.1 = s.timerID)
    (hevs : ∀ e ∈ evs, e = SEv.sStop ∨ ∃ (tid : ℕ) (t : ℚ), e = SEv.sFire tid t) :
    (runS s.stopS evs).2 = [] ∧
    (runS s.stopS evs).1.pending = [] ∧
    (runS s.stopS evs).1.isPlaying = false :=
  runS_inert evs s.stopS (stopS_pending_empty s hp) rfl hevs

/-- State used by the C8 witness: a playing metronome whose stored handle 5
is its only live timeout. -/
def singleChainDemo : MState :=
  { isPlaying := true, timerID := some 5, bpm := some 120, accent := 4,
    startTimeStamp := some 0, beatCount := some 1, rhythm := none,
    pending := [(5, TimerCb.tempo)], nextID := 6 }

/-- Witness for the amended C8: stopping `singleChainDemo` and then letting
the event loop try to fire handle 5 at clock time 1 emits nothing. -/
theorem stop_prevents_ticks_single_pending_witness :
    (∀ p ∈ singleChainDemo.pending, some p.1 = singleChainDemo.timerID) ∧
    (∀ e ∈ [SEv.sFire 5 1],
      e = SEv.sStop ∨ ∃ (tid : ℕ) (t : ℚ), e = SEv.sFire tid t) ∧
    ((runS singleChainDemo.stopS [SEv.sFire 5 1]).2 = [] ∧
      (runS singleChainDemo.stopS [SEv.sFire 5 1]).1.pending = [] ∧
      (runS singleChainDemo.stopS [SEv.sFire 5 1]).1.isPlaying = false) :=
  ⟨by decide, fun _ he => Or.inr ⟨5, 1, List.mem_singleton.mp he⟩,
    stop_prevents_ticks_single_pending singleChainDemo [SEv.sFire 5 1]
      (by decide) (fun _ he => Or.inr ⟨5, 1, List.mem_singleton.mp he⟩)⟩

/-- Claim C9: with `bpm > 0` the scheduler loop terminates through its
guard with finitely many emissions (the fuel `Metronome.scheduler` passes
is sufficient); the validation guard of `start` does not establish this
precondition — every negative bpm passes it — and for `bpm < 0` the loop
never exits through its guard at any fuel once the guard holds, so
`bpm > 0` is a genuine precondition. -/
theorem tick_termination_requires_positive_bpm (a lim : ℚ) (b : ℚ)
    (hb : 0 < b) :
    (∀ (nnt : ℚ) (c : ℤ),
      (schedLoopF a (60 / b) lim (itersNeeded (60 / b) lim nnt + 1) nnt c).finished
        = true ∧
      (schedLoopF a (60 / b) lim
          (itersNeeded (60 / b) lim nnt + 1) nnt c).emissions.length
        = itersNeeded (60 / b) lim nnt) ∧
    (∀ q : ℚ, q < 0 →
      (!truthy (JSNum.num q) || jsIsNaN (toNum (JSNum.num q))) = false) ∧
    (∀ b' : ℚ, b' < 0 → ∀ (fuel : ℕ) (nnt : ℚ) (c : ℤ), nnt < lim →
      (schedLoopF a (60 / b') lim fuel nnt c).finished = false) := by
  have hspb : (0 : ℚ) < 60 / b := by positivity
  refine ⟨?_, ?_, ?_⟩
  · intro nnt c
    have h := schedLoopF_eq a (60 / b) lim hspb
      (itersNeeded (60 / b) lim nnt + 1) nnt c (Nat.lt_succ_self _)
    rw [h]
    exact ⟨rfl, by simp [zrange_length]⟩
  · intro q hq
    have hne : q ≠ 0 := ne_of_lt hq
    simp [truthy, toNum, jsIsNaN, hne]
  · intro b' hb' fuel nnt c hg
    have hneg : 60 / b' ≤ 0 := le_of_lt (div_neg_of_pos_of_neg (by norm_num) hb')
    exact schedLoopF_spin a (60 / b') lim hneg fuel nnt c hg

/-- Witness for C9 at 120 bpm, accent 4, window bound 1. -/
theorem tick_termination_requires_positive_bpm_witness :
    (0 : ℚ) < 120 ∧
    ((∀ (nnt : ℚ) (c : ℤ),
      (schedLoopF 4 (60 / 120) 1 (itersNeeded (60 / 120) 1 nnt + 1) nnt c).finished
        = true ∧
      (schedLoopF 4 (60 / 120) 1
          (itersNeeded (60 / 120) 1 nnt + 1) nnt c).emissions.length
        = itersNeeded (60 / 120) 1 nnt) ∧
    (∀ q : ℚ, q < 0 →
      (!truthy (JSNum.num q) || jsIsNaN (toNum (JSNum.num q))) = false) ∧
    (∀ b' : ℚ, b' < 0 → ∀ (fuel : ℕ) (nnt : ℚ) (c : ℤ), nnt < 1 →
      (schedLoopF 4 (60 / b') 1 fuel nnt c).finished = false)) :=
  ⟨by decide, tick_termination_requires_positive_bpm 4 1 120 (by decide)⟩

/-- Claim C10: on a fresh instance on which `start` never succeeded,
`toggle()` with no arguments does not begin playback: the remembered bpm is
`null`, the delegated `start` fails validation, and the state is unchanged
with `isPlaying` still false. -/
theorem toggle_fresh_instance_rejected (now : ℚ) :
    Metronome.init.toggle JSNum.undef JSNum.undef now = (Metronome.init, []) ∧
    Metronome.init.bpm = none ∧ Metronome.init.isPlaying = false :=
  ⟨rfl, rfl, rfl⟩

end RhythmVis
